import Mathlib

/-!
Shallow embedding of the bowling-style score calculator in `src/script.js`.

A player's throw array is a JS array of numbers, written at indices
`1 .. frames*2+1`; unrecorded throws hold `NaN`, and reads outside the array
give `undefined`, which behaves like `NaN` in every arithmetic operation and
comparison.  We model a slot as `Option Int` (`none` = `NaN`/`undefined`) and
the array as a `List (Option Int)` whose position 0 is the unused JS index 0.

The embedded operations are `validate`, `throwString`, `next` (as `nextFuel`,
with explicit call-stack fuel, since the source recursion is not structurally
bounded), `frameTotal`, the cumulative subtotal row (`cumulDisplay`) and the
grand total (`jsTotal`).
-/

namespace Bowl

/-- A throw sequence: `none` models `NaN`/`undefined` (unrecorded), `some v`
a recorded number.  Position 0 corresponds to the unused JS index 0. -/
abbrev Seq := List (Option Int)

/-- Read slot `i`; out-of-range reads give `undefined`, which acts as `NaN`. -/
def geti (s : Seq) (i : Nat) : Option Int := s.getD i none

/-- JS `a + b` on numbers where `none` is `NaN`: `NaN` propagates. -/
def nadd : Option Int → Option Int → Option Int
  | some x, some y => some (x + y)
  | _, _ => none

/-- JS `a - b` with `NaN` propagation. -/
def nsub : Option Int → Option Int → Option Int
  | some x, some y => some (x - y)
  | _, _ => none

/-- JS `a >= b`: false when either side is `NaN`. -/
def jge : Option Int → Option Int → Bool
  | some x, some y => decide (y ≤ x)
  | _, _ => false

/-- JS `a > b`: false when either side is `NaN`. -/
def jgt : Option Int → Option Int → Bool
  | some x, some y => decide (y < x)
  | _, _ => false

/-- JS `a < b`: false when either side is `NaN`. -/
def jlt : Option Int → Option Int → Bool
  | some x, some y => decide (x < y)
  | _, _ => false

/-- One slot of the clamp pass (script.js lines 49-50):
`if (input[i] < 0) input[i] = 0; if (input[i] > strike) input[i] = strike;`.
`NaN` fails both comparisons and is left alone; the second test reads the
value possibly written by the first. -/
def clampSlot (strike : Int) (v : Option Int) : Option Int :=
  let v1 := if jlt v (some 0) then some 0 else v
  if jgt v1 (some strike) then some strike else v1

/-- The clamp loop over the slot indices in `l`
(source: `for (throws = 1; throws <= frames*2+1; throws++)`). -/
def clampGo (strike : Int) : List Nat → Seq → Seq
  | [], s => s
  | i :: rest, s => clampGo strike rest (s.set i (clampSlot strike (geti s i)))

/-- The full clamp pass of `validate` (script.js lines 48-51). -/
def clampPass (strike : Int) (F : Nat) (s : Seq) : Seq :=
  clampGo strike (List.range' 1 (2 * F + 1)) s

/-- First per-frame repair statement (script.js lines 58-59):
`if (input[2f-1] + input[2f] > strike) input[2f] = strike - input[2f-1];`. -/
def fixOver (strike : Int) (f : Nat) (s : Seq) : Seq :=
  if jgt (nadd (geti s (2 * f - 1)) (geti s (2 * f))) (some strike)
  then s.set (2 * f) (nsub (some strike) (geti s (2 * f - 1)))
  else s

/-- Second per-frame repair statement (script.js line 60):
`if (input[2f-1] >= strike) input[2f] = NaN;`. -/
def fixStrike (strike : Int) (f : Nat) (s : Seq) : Seq :=
  if jge (geti s (2 * f - 1)) (some strike) then s.set (2 * f) none else s

/-- The two per-frame repair statements in source order; the second test reads
the state left by the first. -/
def frameFix (strike : Int) (f : Nat) (s : Seq) : Seq :=
  fixStrike strike f (fixOver strike f s)

/-- The repair loop of `validate` (script.js lines 52-61).  The frame list is
processed in order; on the last frame (`f = F`), if the frame's two throws sum
below `strike` the bonus slot is cleared and the two repair statements still
run, otherwise the loop exits (`else break`). -/
def repairGo (strike : Int) (F : Nat) : List Nat → Seq → Seq
  | [], s => s
  | f :: rest, s =>
    if f = F then
      if jlt (nadd (geti s (2 * F - 1)) (geti s (2 * F))) (some strike) then
        repairGo strike F rest (frameFix strike f (s.set (2 * F + 1) none))
      else s
    else repairGo strike F rest (frameFix strike f s)

/-- `validate` (script.js lines 47-62): clamp pass over slots `1..2F+1`,
then the per-frame repair loop over frames `1..F`. -/
def validate (strike : Int) (F : Nat) (s : Seq) : Seq :=
  repairGo strike F (List.range' 1 F) (clampPass strike F s)

/-- `throwString` (script.js lines 69-83): the glyph for slot `t`. -/
def throwString (strike : Int) (F : Nat) (input : Seq) (t : Nat) : String :=
  match geti input t with
  | none => "&nbsp;"
  | some v =>
    if t % 2 = 1 ∨ (t = 2 * F ∧ jge (geti input (t - 1)) (some strike)) then
      if strike ≤ v then "X" else if v = 0 then "G" else toString v
    else
      if jge (nadd (some v) (geti input (t - 1))) (some strike) then "/"
      else if v = 0 then "-" else toString v

/-- Outcome of one top-level call of the lookahead helper `next`. -/
inductive NextRes where
  /-- `next` returned this index. -/
  | found : Nat → NextRes
  /-- `next` threw `Error("Invalid frame access")`. -/
  | err : NextRes
  /-- the recursion exhausted the call stack (JS `RangeError`). -/
  | overflow : NextRes
deriving DecidableEq

/-- The lookahead helper `next` (script.js lines 92-96):
`if (isNaN(input[throws+1])) return next(throws+1);
 if (throws > limit) throw Error; return throws+1;` with `limit = frames*2+1`.
The source recursion has no structural bound, so the available call stack is
made explicit as `fuel`; running out of fuel is the engine's stack overflow. -/
def nextFuel (input : Seq) (limit : Nat) : Nat → Nat → NextRes
  | 0, _ => .overflow
  | fuel + 1, throws =>
    if (geti input (throws + 1)).isNone then nextFuel input limit fuel (throws + 1)
    else if limit < throws then .err
    else .found (throws + 1)

/-- `capStrike` (script.js line 98): `value > strike ? strike : value`;
`NaN` fails the comparison and passes through. -/
def capStrikeN (strike : Int) (v : Option Int) : Option Int :=
  if jgt v (some strike) then some strike else v

/-- The `try`-body of one iteration of the `frameTotal` loop
(script.js lines 102-116) for the frame starting at slot `t`.
`.error ()` is a thrown exception (the `next` Error or a stack overflow),
`.ok v` the value pushed (`none` = `NaN`). -/
def frameScoreBody (strike : Int) (F : Nat) (fuel : Nat) (input : Seq) (t : Nat) :
    Except Unit (Option Int) :=
  if jge (geti input t) (some strike) then
    match nextFuel input (2 * F + 1) fuel t with
    | .found i1 =>
      match nextFuel input (2 * F + 1) fuel i1 with
      | .found i2 =>
        .ok (nadd (nadd (some strike) (capStrikeN strike (geti input i1)))
          (capStrikeN strike (geti input i2)))
      | _ => .error ()
    | _ => .error ()
  else if jge (nadd (geti input (t + 1)) (geti input t)) (some strike) then
    match nextFuel input (2 * F + 1) fuel t with
    | .found i1 =>
      match nextFuel input (2 * F + 1) fuel i1 with
      | .found i2 => .ok (nadd (some strike) (capStrikeN strike (geti input i2)))
      | _ => .error ()
    | _ => .error ()
  else if (geti input (t + 1)).isNone || (geti input t).isNone then .ok none
  else .ok (nadd (geti input t) (geti input (t + 1)))

/-- One iteration of the `frameTotal` loop with its `catch` (script.js
lines 101-119): any exception from the body is converted to a pushed `NaN`. -/
def frameScore (strike : Int) (F : Nat) (fuel : Nat) (input : Seq) (t : Nat) :
    Option Int :=
  match frameScoreBody strike F fuel input t with
  | .ok v => v
  | .error _ => none

/-- `frameTotal` (script.js lines 88-122): the loop
`for (throws = 1; throws <= frames*2; throws += 2)` pushes one value per
frame; frame `i` (0-based) starts at slot `2*i+1`. -/
def frameTotal (strike : Int) (F : Nat) (fuel : Nat) (input : Seq) :
    List (Option Int) :=
  (List.range F).map fun i => frameScore strike F fuel input (2 * i + 1)

/-- The `frameTotal` loop with the input array threaded through as state, as
an imperative translation would have it: each iteration receives the array and
the result list built so far and returns both.  The body only reads the array. -/
def frameTotalLoop (strike : Int) (F : Nat) (fuel : Nat) :
    List Nat → Seq × List (Option Int) → Seq × List (Option Int)
  | [], st => st
  | t :: rest, (inp, res) =>
    frameTotalLoop strike F fuel rest (inp, res ++ [frameScore strike F fuel inp t])

/-- State-passing form of `frameTotal`: returns the final state of the input
array together with the result list. -/
def frameTotalSt (strike : Int) (F : Nat) (fuel : Nat) (input : Seq) :
    Seq × List (Option Int) :=
  frameTotalLoop strike F fuel ((List.range F).map fun i => 2 * i + 1) (input, [])

/-- The cumulative subtotal row (script.js lines 151-158):
`isNaN(subtotal[frame-1]) ? blank : (sum += subtotal[frame-1])` — an
incomplete frame shows blank and leaves the running sum unchanged. -/
def cumulGo : Int → List (Option Int) → List (Option Int)
  | _, [] => []
  | sum, none :: rest => none :: cumulGo sum rest
  | sum, some v :: rest => some (sum + v) :: cumulGo (sum + v) rest

/-- The displayed cumulative cells for a subtotal sequence. -/
def cumulDisplay (sub : List (Option Int)) : List (Option Int) := cumulGo 0 sub

/-- The grand total (script.js line 159):
`subtotal.reduce((sum, value) => sum + value, 0)`; `NaN` poisons the sum. -/
def jsTotal (sub : List (Option Int)) : Option Int := sub.foldl nadd (some 0)

/-- Sum of the recorded values of a subtotal list. -/
def sumRec : List (Option Int) → Int
  | [] => 0
  | none :: rest => sumRec rest
  | some v :: rest => v + sumRec rest

/-- The per-frame repair rule as a value transformer: given the (clamped)
first and second throws `a`, `b` of a regular frame, the second throw after
repair.  Mirrors spec §4.1: a strike forces the second throw unrecorded;
otherwise a recorded pair summing above `strike` is reduced to
`strike - a`; otherwise it is untouched. -/
def secondVal (strike : Int) (a b : Option Int) : Option Int :=
  if jge a (some strike) then none
  else if jgt (nadd a b) (some strike) then nsub (some strike) a
  else b

/-- First-throw-position glyph rule of spec §4.3: threshold reached → `"X"`,
zero → `"G"`, else the numeral. -/
def firstGlyph (strike v : Int) : String :=
  if strike ≤ v then "X" else if v = 0 then "G" else toString v

/-- Second-throw-position glyph rule of spec §4.3: combined with the previous
slot reaching the threshold → `"/"`, zero → `"-"`, else the numeral. -/
def secondGlyph (strike v : Int) (prev : Option Int) : String :=
  if jge (nadd (some v) prev) (some strike) then "/"
  else if v = 0 then "-" else toString v

/-! ### Basic facts about slot reads and writes -/

theorem geti_set_ne (s : Seq) (i j : Nat) (v : Option Int) (h : i ≠ j) :
    geti (s.set i v) j = geti s j := by
  simp [geti, List.getElem?_set_ne h]

theorem geti_of_length_le (s : Seq) (i : Nat) (h : s.length ≤ i) : geti s i = none := by
  simp [geti, List.getElem?_eq_none h]

theorem geti_set_self (s : Seq) (i : Nat) (v : Option Int) :
    geti (s.set i v) i = if i < s.length then v else none := by
  by_cases h : i < s.length
  · simp [geti, List.getElem?_set_self h, h]
  · rw [List.set_eq_of_length_le (Nat.le_of_not_lt h), if_neg h,
      geti_of_length_le s i (Nat.le_of_not_lt h)]

theorem geti_set_none (s : Seq) (i : Nat) : geti (s.set i none) i = none := by
  rw [geti_set_self]; split <;> rfl

theorem set_geti_self (s : Seq) (i : Nat) : s.set i (geti s i) = s := by
  induction s generalizing i with
  | nil => rfl
  | cons a l ih =>
    cases i with
    | zero => rfl
    | succ i => simp only [geti, List.getD_cons_succ, List.set_cons_succ]; exact congrArg _ (ih i)

theorem clampSlot_none (strike : Int) : clampSlot strike none = none := rfl

/-! ### Lengths are preserved -/

theorem clampGo_length (strike : Int) (l : List Nat) (s : Seq) :
    (clampGo strike l s).length = s.length := by
  induction l generalizing s with
  | nil => rfl
  | cons i rest ih => simp [clampGo, ih]

theorem fixOver_length (strike : Int) (f : Nat) (s : Seq) :
    (fixOver strike f s).length = s.length := by
  unfold fixOver; split <;> simp

theorem fixStrike_length (strike : Int) (f : Nat) (s : Seq) :
    (fixStrike strike f s).length = s.length := by
  unfold fixStrike; split <;> simp

theorem frameFix_length (strike : Int) (f : Nat) (s : Seq) :
    (frameFix strike f s).length = s.length := by
  unfold frameFix; rw [fixStrike_length, fixOver_length]

theorem repairGo_length (strike : Int) (F : Nat) (l : List Nat) (s : Seq) :
    (repairGo strike F l s).length = s.length := by
  induction l generalizing s with
  | nil => rfl
  | cons f rest ih =>
    simp only [repairGo]
    split
    · split
      · rw [ih, frameFix_length, List.length_set]
      · rfl
    · rw [ih, frameFix_length]

theorem validate_length (strike : Int) (F : Nat) (s : Seq) :
    (validate strike F s).length = s.length := by
  unfold validate clampPass; rw [repairGo_length, clampGo_length]

/-! ### The clamp pass, slotwise -/

theorem clampGo_geti (strike : Int) (l : List Nat) (s : Seq) (i : Nat) (hl : l.Nodup) :
    geti (clampGo strike l s) i =
      if i ∈ l then clampSlot strike (geti s i) else geti s i := by
  induction l generalizing s with
  | nil => simp [clampGo]
  | cons j rest ih =>
    simp only [clampGo]
    rw [ih _ (List.Nodup.of_cons hl)]
    by_cases hij : i = j
    · subst hij
      have hni : i ∉ rest := (List.nodup_cons.mp hl).1
      rw [if_neg hni, if_pos (List.mem_cons_self i rest)]
      rw [geti_set_self]
      split
      · rfl
      · rw [geti_of_length_le s i (by omega)]; rfl
    · rw [geti_set_ne _ _ _ _ (Ne.symm hij)]
      simp [List.mem_cons, hij]

theorem clampPass_geti (strike : Int) (F : Nat) (s : Seq) (i : Nat) :
    geti (clampPass strike F s) i =
      if 1 ≤ i ∧ i ≤ 2 * F + 1 then clampSlot strike (geti s i) else geti s i := by
  unfold clampPass
  rw [clampGo_geti _ _ _ _ (List.nodup_range' _ _)]
  by_cases h : 1 ≤ i ∧ i ≤ 2 * F + 1
  · rw [if_pos (List.mem_range'_1.mpr ⟨h.1, by omega⟩), if_pos h]
  · rw [if_neg (fun hm => h (by
      obtain ⟨h1, h2⟩ := List.mem_range'_1.mp hm; exact ⟨h1, by omega⟩)), if_neg h]

/-! ### Shapes of the JS-number operations -/

theorem jgt_nadd_some {a b : Option Int} {c : Int} (h : jgt (nadd a b) (some c) = true) :
    ∃ x y, a = some x ∧ b = some y ∧ c < x + y := by
  rcases a with _ | x
  · simp [nadd, jgt] at h
  · rcases b with _ | y
    · simp [nadd, jgt] at h
    · exact ⟨x, y, rfl, rfl, by simpa [nadd, jgt] using h⟩

theorem jlt_nadd_some {a b : Option Int} {c : Int} (h : jlt (nadd a b) (some c) = true) :
    ∃ x y, a = some x ∧ b = some y ∧ x + y < c := by
  rcases a with _ | x
  · simp [nadd, jlt] at h
  · rcases b with _ | y
    · simp [nadd, jlt] at h
    · exact ⟨x, y, rfl, rfl, by simpa [nadd, jlt] using h⟩

theorem jge_some {a : Option Int} {c : Int} (h : jge a (some c) = true) :
    ∃ x, a = some x ∧ c ≤ x := by
  rcases a with _ | x
  · simp [jge] at h
  · exact ⟨x, rfl, by simpa [jge] using h⟩

/-! ### The repair statements, slotwise -/

theorem fixOver_geti_ne (strike : Int) (f : Nat) (s : Seq) (j : Nat) (h : j ≠ 2 * f) :
    geti (fixOver strike f s) j = geti s j := by
  unfold fixOver; split
  · exact geti_set_ne _ _ _ _ (Ne.symm h)
  · rfl

theorem fixStrike_geti_ne (strike : Int) (f : Nat) (s : Seq) (j : Nat) (h : j ≠ 2 * f) :
    geti (fixStrike strike f s) j = geti s j := by
  unfold fixStrike; split
  · exact geti_set_ne _ _ _ _ (Ne.symm h)
  · rfl

theorem frameFix_geti_ne (strike : Int) (f : Nat) (s : Seq) (j : Nat) (h : j ≠ 2 * f) :
    geti (frameFix strike f s) j = geti s j := by
  unfold frameFix
  rw [fixStrike_geti_ne _ _ _ _ h, fixOver_geti_ne _ _ _ _ h]

theorem frameFix_geti_self (strike : Int) (f : Nat) (s : Seq) (hf : 1 ≤ f) :
    geti (frameFix strike f s) (2 * f) =
      secondVal strike (geti s (2 * f - 1)) (geti s (2 * f)) := by
  have hne : (2 * f : Nat) ≠ 2 * f - 1 := by omega
  unfold frameFix fixStrike fixOver secondVal
  by_cases hover : jgt (nadd (geti s (2 * f - 1)) (geti s (2 * f))) (some strike) = true
  · obtain ⟨x, y, hx, hy, hxy⟩ := jgt_nadd_some hover
    have hlen : 2 * f < s.length := by
      by_contra hc
      rw [geti_of_length_le s _ (Nat.le_of_not_lt hc)] at hy
      exact Option.noConfusion hy
    rw [if_pos hover, geti_set_ne _ _ _ _ hne]
    by_cases hstrike : jge (geti s (2 * f - 1)) (some strike) = true
    · rw [if_pos hstrike, if_pos hstrike, geti_set_none]
    · rw [if_neg hstrike, if_neg hstrike, if_pos hover, geti_set_self, if_pos hlen]
  · rw [if_neg hover]
    by_cases hstrike : jge (geti s (2 * f - 1)) (some strike) = true
    · rw [if_pos hstrike, if_pos hstrike, geti_set_none]
    · rw [if_neg hstrike, if_neg hstrike, if_neg hover]

/-! ### The repair loop -/

theorem repairGo_append (strike : Int) (F : Nat) (l1 l2 : List Nat) (s : Seq)
    (h : F ∉ l1) :
    repairGo strike F (l1 ++ l2) s = repairGo strike F l2 (repairGo strike F l1 s) := by
  induction l1 generalizing s with
  | nil => rfl
  | cons f rest ih =>
    have hf : ¬(f = F) := fun e => h (by rw [e]; exact List.mem_cons_self F rest)
    simp only [List.cons_append, repairGo, if_neg hf]
    exact ih _ (fun hm => h (List.mem_cons_of_mem _ hm))

theorem repairGo_geti_untouched (strike : Int) (F : Nat) (l : List Nat) (s : Seq) (i : Nat)
    (h : ∀ g ∈ l, i ≠ 2 * g ∧ (g = F → i ≠ 2 * F + 1)) :
    geti (repairGo strike F l s) i = geti s i := by
  induction l generalizing s with
  | nil => rfl
  | cons f rest ih =>
    obtain ⟨h1, h2⟩ := h f (List.mem_cons_self f rest)
    have hrest := fun g hg => h g (List.mem_cons_of_mem f hg)
    by_cases hf : f = F
    · subst hf
      simp only [repairGo, if_true]
      by_cases hcond :
          jlt (nadd (geti s (2 * f - 1)) (geti s (2 * f))) (some strike) = true
      · rw [if_pos hcond, ih _ hrest, frameFix_geti_ne _ _ _ _ h1,
          geti_set_ne _ _ _ _ (Ne.symm (h2 rfl))]
      · rw [if_neg hcond]
    · simp only [repairGo, if_neg hf]
      rw [ih _ hrest, frameFix_geti_ne _ _ _ _ h1]

/-! ### Splitting the frame list -/

theorem range'_split_at (f F : Nat) (hf : 1 ≤ f) (hF : f ≤ F) :
    List.range' 1 F = List.range' 1 (f - 1) ++ List.range' f (F - f + 1) := by
  have h1 : 1 + (f - 1) = f := by omega
  have happ := List.range'_append_1 1 (f - 1) (F - f + 1)
  rw [h1] at happ
  rw [happ]
  congr 1
  omega

theorem notMem_range'_head (f F : Nat) (hF : f ≤ F) : F ∉ List.range' 1 (f - 1) := by
  intro hm
  obtain ⟨_, h2⟩ := List.mem_range'_1.mp hm
  omega

/-! ### Clamp values -/

theorem clampSlot_some_eq (strike x : Int) :
    clampSlot strike (some x) = some (min (max x 0) strike) := by
  simp only [clampSlot]
  by_cases h1 : x < 0
  · rw [if_pos (show jlt (some x) (some 0) = true by simp [jlt]; omega)]
    by_cases h2 : strike < 0
    · rw [if_pos (show jgt (some 0) (some strike) = true by simp [jgt]; omega)]
      congr 1; omega
    · rw [if_neg (show ¬(jgt (some 0) (some strike) = true) by simp [jgt]; omega)]
      congr 1; omega
  · rw [if_neg (show ¬(jlt (some x) (some 0) = true) by simp [jlt]; omega)]
    by_cases h2 : strike < x
    · rw [if_pos (show jgt (some x) (some strike) = true by simp [jgt]; omega)]
      congr 1; omega
    · rw [if_neg (show ¬(jgt (some x) (some strike) = true) by simp [jgt]; omega)]
      congr 1; omega

theorem clampSlot_bounds (strike : Int) (h : 0 ≤ strike) {o : Option Int} {v : Int}
    (hv : clampSlot strike o = some v) : 0 ≤ v ∧ v ≤ strike := by
  rcases o with _ | x
  · exact Option.noConfusion hv
  · rw [clampSlot_some_eq] at hv
    injection hv with hv
    omega

theorem clampSlot_fix (strike v : Int) (h0 : 0 ≤ v) (h1 : v ≤ strike) :
    clampSlot strike (some v) = some v := by
  rw [clampSlot_some_eq]; congr 1; omega

/-! ### secondVal facts -/

theorem secondVal_of_sum_lt (strike : Int) (a b : Option Int)
    (h : jlt (nadd a b) (some strike) = true)
    (hb : ∀ y, b = some y → 0 ≤ y) :
    secondVal strike a b = b := by
  obtain ⟨x, y, hx, hy, hxy⟩ := jlt_nadd_some h
  subst hx; subst hy
  have h0y := hb y rfl
  have hge : ¬(jge (some x) (some strike) = true) := by
    simp only [jge, decide_eq_true_eq]; omega
  have hgt : ¬(jgt (nadd (some x) (some y)) (some strike) = true) := by
    simp only [nadd, jgt, decide_eq_true_eq]; omega
  unfold secondVal
  rw [if_neg hge, if_neg hgt]

/-! ### The validated sequence, slot by slot -/

theorem validate_geti_odd (strike : Int) (F : Nat) (s : Seq) (i : Nat)
    (hodd : i % 2 = 1) (hle : i ≤ 2 * F + 1) (hne : i ≠ 2 * F + 1) :
    geti (validate strike F s) i = clampSlot strike (geti s i) := by
  unfold validate
  rw [repairGo_geti_untouched _ _ _ _ _ (fun g hg => ⟨by omega, fun _ => hne⟩)]
  rw [clampPass_geti, if_pos ⟨by omega, hle⟩]

theorem validate_geti_second (strike : Int) (F : Nat) (s : Seq) (f : Nat)
    (hf1 : 1 ≤ f) (hfF : f < F) :
    geti (validate strike F s) (2 * f) =
      secondVal strike (clampSlot strike (geti s (2 * f - 1)))
        (clampSlot strike (geti s (2 * f))) := by
  unfold validate
  rw [range'_split_at f F hf1 (le_of_lt hfF)]
  rw [repairGo_append _ _ _ _ _ (notMem_range'_head f F (le_of_lt hfF))]
  rw [List.range'_succ f (F - f)]
  simp only [repairGo, if_neg (show ¬(f = F) by omega)]
  rw [repairGo_geti_untouched _ _ _ _ (2 * f) (fun g hg => by
    obtain ⟨hg1, hg2⟩ := List.mem_range'_1.mp hg
    exact ⟨by omega, fun _ => by omega⟩)]
  rw [frameFix_geti_self _ _ _ hf1]
  rw [repairGo_geti_untouched _ _ _ _ (2 * f - 1) (fun g hg => by
    obtain ⟨hg1, hg2⟩ := List.mem_range'_1.mp hg
    exact ⟨by omega, fun hgF => by omega⟩)]
  rw [repairGo_geti_untouched _ _ _ _ (2 * f) (fun g hg => by
    obtain ⟨hg1, hg2⟩ := List.mem_range'_1.mp hg
    exact ⟨by omega, fun hgF => by omega⟩)]
  rw [clampPass_geti, clampPass_geti,
    if_pos (show 1 ≤ 2 * f - 1 ∧ 2 * f - 1 ≤ 2 * F + 1 by omega),
    if_pos (show 1 ≤ 2 * f ∧ 2 * f ≤ 2 * F + 1 by omega)]

theorem validate_geti_last2 (strike : Int) (F : Nat) (s : Seq)
    (hF : 1 ≤ F) (h0 : 0 ≤ strike) :
    geti (validate strike F s) (2 * F) = clampSlot strike (geti s (2 * F)) := by
  unfold validate
  rw [range'_split_at F F hF le_rfl]
  rw [repairGo_append _ _ _ _ _ (notMem_range'_head F F le_rfl)]
  rw [show F - F + 1 = 1 by omega, List.range'_one]
  have ha : geti (repairGo strike F (List.range' 1 (F - 1)) (clampPass strike F s))
      (2 * F - 1) = clampSlot strike (geti s (2 * F - 1)) := by
    rw [repairGo_geti_untouched _ _ _ _ _ (fun g hg => by
      obtain ⟨hg1, hg2⟩ := List.mem_range'_1.mp hg
      exact ⟨by omega, fun hgF => by omega⟩)]
    rw [clampPass_geti, if_pos (show 1 ≤ 2 * F - 1 ∧ 2 * F - 1 ≤ 2 * F + 1 by omega)]
  have hb : geti (repairGo strike F (List.range' 1 (F - 1)) (clampPass strike F s))
      (2 * F) = clampSlot strike (geti s (2 * F)) := by
    rw [repairGo_geti_untouched _ _ _ _ _ (fun g hg => by
      obtain ⟨hg1, hg2⟩ := List.mem_range'_1.mp hg
      exact ⟨by omega, fun hgF => by omega⟩)]
    rw [clampPass_geti, if_pos (show 1 ≤ 2 * F ∧ 2 * F ≤ 2 * F + 1 by omega)]
  simp only [repairGo, if_true]
  by_cases hcond : jlt (nadd
      (geti (repairGo strike F (List.range' 1 (F - 1)) (clampPass strike F s)) (2 * F - 1))
      (geti (repairGo strike F (List.range' 1 (F - 1)) (clampPass strike F s)) (2 * F)))
      (some strike) = true
  · rw [if_pos hcond]
    rw [frameFix_geti_self _ _ _ hF]
    rw [geti_set_ne _ _ _ _ (show 2 * F + 1 ≠ 2 * F - 1 by omega),
      geti_set_ne _ _ _ _ (show 2 * F + 1 ≠ 2 * F by omega)]
    rw [ha, hb]
    rw [ha, hb] at hcond
    exact secondVal_of_sum_lt strike _ _ hcond
      (fun y hy => (clampSlot_bounds strike h0 hy).1)
  · rw [if_neg hcond]
    exact hb

theorem validate_geti_bonus (strike : Int) (F : Nat) (s : Seq) (hF : 1 ≤ F) :
    geti (validate strike F s) (2 * F + 1) =
      if jlt (nadd (clampSlot strike (geti s (2 * F - 1)))
          (clampSlot strike (geti s (2 * F)))) (some strike) = true
      then none else clampSlot strike (geti s (2 * F + 1)) := by
  unfold validate
  rw [range'_split_at F F hF le_rfl]
  rw [repairGo_append _ _ _ _ _ (notMem_range'_head F F le_rfl)]
  rw [show F - F + 1 = 1 by omega, List.range'_one]
  have ha : geti (repairGo strike F (List.range' 1 (F - 1)) (clampPass strike F s))
      (2 * F - 1) = clampSlot strike (geti s (2 * F - 1)) := by
    rw [repairGo_geti_untouched _ _ _ _ _ (fun g hg => by
      obtain ⟨hg1, hg2⟩ := List.mem_range'_1.mp hg
      exact ⟨by omega, fun hgF => by omega⟩)]
    rw [clampPass_geti, if_pos (show 1 ≤ 2 * F - 1 ∧ 2 * F - 1 ≤ 2 * F + 1 by omega)]
  have hb : geti (repairGo strike F (List.range' 1 (F - 1)) (clampPass strike F s))
      (2 * F) = clampSlot strike (geti s (2 * F)) := by
    rw [repairGo_geti_untouched _ _ _ _ _ (fun g hg => by
      obtain ⟨hg1, hg2⟩ := List.mem_range'_1.mp hg
      exact ⟨by omega, fun hgF => by omega⟩)]
    rw [clampPass_geti, if_pos (show 1 ≤ 2 * F ∧ 2 * F ≤ 2 * F + 1 by omega)]
  have hc : geti (repairGo strike F (List.range' 1 (F - 1)) (clampPass strike F s))
      (2 * F + 1) = clampSlot strike (geti s (2 * F + 1)) := by
    rw [repairGo_geti_untouched _ _ _ _ _ (fun g hg => by
      obtain ⟨hg1, hg2⟩ := List.mem_range'_1.mp hg
      exact ⟨by omega, fun hgF => by omega⟩)]
    rw [clampPass_geti, if_pos (show 1 ≤ 2 * F + 1 ∧ 2 * F + 1 ≤ 2 * F + 1 by omega)]
  simp only [repairGo, if_true]
  by_cases hcond : jlt (nadd
      (geti (repairGo strike F (List.range' 1 (F - 1)) (clampPass strike F s)) (2 * F - 1))
      (geti (repairGo strike F (List.range' 1 (F - 1)) (clampPass strike F s)) (2 * F)))
      (some strike) = true
  · rw [if_pos hcond]
    rw [frameFix_geti_ne _ _ _ _ (show 2 * F + 1 ≠ 2 * F by omega), geti_set_none]
    rw [ha, hb] at hcond
    rw [if_pos hcond]
  · rw [if_neg hcond]
    rw [ha, hb] at hcond
    rw [if_neg hcond]
    exact hc

theorem validate_geti_out (strike : Int) (F : Nat) (s : Seq) (i : Nat)
    (h : i = 0 ∨ 2 * F + 1 < i) :
    geti (validate strike F s) i = geti s i := by
  unfold validate
  rw [repairGo_geti_untouched _ _ _ _ _ (fun g hg => by
    obtain ⟨hg1, hg2⟩ := List.mem_range'_1.mp hg
    exact ⟨by omega, fun _ => by omega⟩)]
  rw [clampPass_geti, if_neg (by omega)]

theorem secondVal_bounds (strike : Int) (_h0 : 0 ≤ strike) (a b : Option Int) (v : Int)
    (ha : ∀ x, a = some x → 0 ≤ x ∧ x ≤ strike)
    (hb : ∀ y, b = some y → 0 ≤ y ∧ y ≤ strike)
    (hv : secondVal strike a b = some v) : 0 ≤ v ∧ v ≤ strike := by
  unfold secondVal at hv
  split at hv
  · exact Option.noConfusion hv
  · split at hv
    · rename_i hge hgt
      obtain ⟨x, y, hx, hy, hxy⟩ := jgt_nadd_some hgt
      subst hx
      rw [show nsub (some strike) (some x) = some (strike - x) from rfl] at hv
      injection hv with hv
      obtain ⟨hx0, hx1⟩ := ha x rfl
      omega
    · exact hb v hv

/-- Every recorded slot of the validated sequence lies in `[0, strike]`. -/
theorem validate_bounds (strike : Int) (F : Nat) (s : Seq) (i : Nat) (v : Int)
    (h0 : 0 ≤ strike) (hF : 1 ≤ F) (h1 : 1 ≤ i) (h2 : i ≤ 2 * F + 1)
    (hv : geti (validate strike F s) i = some v) : 0 ≤ v ∧ v ≤ strike := by
  by_cases hodd : i % 2 = 1
  · by_cases hbon : i = 2 * F + 1
    · subst hbon
      rw [validate_geti_bonus _ _ _ hF] at hv
      split at hv
      · exact Option.noConfusion hv
      · exact clampSlot_bounds strike h0 hv
    · rw [validate_geti_odd _ _ _ _ hodd h2 hbon] at hv
      exact clampSlot_bounds strike h0 hv
  · obtain ⟨f, rfl⟩ : ∃ f, i = 2 * f := ⟨i / 2, by omega⟩
    have hf1 : 1 ≤ f := by omega
    by_cases hfF : f < F
    · rw [validate_geti_second _ _ _ _ hf1 hfF] at hv
      exact secondVal_bounds strike h0 _ _ v
        (fun x hx => clampSlot_bounds strike h0 hx)
        (fun y hy => clampSlot_bounds strike h0 hy) hv
    · have hfe : f = F := by omega
      subst hfe
      rw [validate_geti_last2 _ _ _ hF h0] at hv
      exact clampSlot_bounds strike h0 hv

/-! ### Idempotence machinery -/

theorem secondVal_idem (strike : Int) (a b : Option Int) :
    secondVal strike a (secondVal strike a b) = secondVal strike a b := by
  unfold secondVal
  by_cases hge : jge a (some strike) = true
  · rw [if_pos hge, if_pos hge]
  · rw [if_neg hge, if_neg hge]
    by_cases hgt : jgt (nadd a b) (some strike) = true
    · rw [if_pos hgt, ite_self]
    · rw [if_neg hgt, if_neg hgt]

theorem clampGo_id (strike : Int) (l : List Nat) (s : Seq)
    (h : ∀ i ∈ l, clampSlot strike (geti s i) = geti s i) :
    clampGo strike l s = s := by
  induction l with
  | nil => rfl
  | cons i rest ih =>
    simp only [clampGo]
    rw [h i (List.mem_cons_self i rest), set_geti_self]
    exact ih (fun j hj => h j (List.mem_cons_of_mem i hj))

theorem frameFix_id (strike : Int) (f : Nat) (s : Seq)
    (hfix : geti s (2 * f) = secondVal strike (geti s (2 * f - 1)) (geti s (2 * f))) :
    frameFix strike f s = s := by
  unfold frameFix fixOver fixStrike
  by_cases hge : jge (geti s (2 * f - 1)) (some strike) = true
  · have hb : geti s (2 * f) = none := by
      rw [hfix]; unfold secondVal; rw [if_pos hge]
    have hgt : ¬(jgt (nadd (geti s (2 * f - 1)) (geti s (2 * f))) (some strike) = true) := by
      rw [hb]; rcases geti s (2 * f - 1) with _ | x <;> simp [nadd, jgt]
    rw [if_neg hgt, if_pos hge, ← hb, set_geti_self]
  · by_cases hgt : jgt (nadd (geti s (2 * f - 1)) (geti s (2 * f))) (some strike) = true
    · exfalso
      obtain ⟨x, y, hx, hy, hxy⟩ := jgt_nadd_some hgt
      have hv : geti s (2 * f) = nsub (some strike) (geti s (2 * f - 1)) := by
        rw [hfix]; unfold secondVal; rw [if_neg hge, if_pos hgt]
      rw [hx, hy] at hv
      injection hv with hv
      omega
    · rw [if_neg hgt, if_neg hge]

theorem repairGo_id_of (strike : Int) (F : Nat) (l : List Nat) (s : Seq)
    (h : ∀ g ∈ l, ¬(g = F) ∧ frameFix strike g s = s) :
    repairGo strike F l s = s := by
  induction l with
  | nil => rfl
  | cons f rest ih =>
    obtain ⟨hf, hfix⟩ := h f (List.mem_cons_self f rest)
    simp only [repairGo, if_neg hf]
    rw [hfix]
    exact ih (fun g hg => h g (List.mem_cons_of_mem f hg))

/-- Running `validate` a second time changes nothing. -/
theorem validate_validate (strike : Int) (F : Nat) (s : Seq)
    (h0 : 0 ≤ strike) (hF : 1 ≤ F) :
    validate strike F (validate strike F s) = validate strike F s := by
  have hclamp : clampPass strike F (validate strike F s) = validate strike F s := by
    unfold clampPass
    apply clampGo_id
    intro i hi
    obtain ⟨hi1, hi2⟩ := List.mem_range'_1.mp hi
    rcases hv : geti (validate strike F s) i with _ | v
    · exact clampSlot_none strike
    · obtain ⟨hv0, hv1⟩ := validate_bounds strike F s i v h0 hF hi1 (by omega) hv
      exact clampSlot_fix strike v hv0 hv1
  have hD : repairGo strike F (List.range' 1 (F - 1)) (validate strike F s) =
      validate strike F s := by
    apply repairGo_id_of
    intro g hg
    obtain ⟨hg1, hg2⟩ := List.mem_range'_1.mp hg
    refine ⟨by omega, ?_⟩
    apply frameFix_id
    have e1 : geti (validate strike F s) (2 * g - 1) =
        clampSlot strike (geti s (2 * g - 1)) :=
      validate_geti_odd strike F s (2 * g - 1) (by omega) (by omega) (by omega)
    have e2 : geti (validate strike F s) (2 * g) =
        secondVal strike (clampSlot strike (geti s (2 * g - 1)))
          (clampSlot strike (geti s (2 * g))) :=
      validate_geti_second strike F s g (by omega) (by omega)
    rw [e1, e2, secondVal_idem]
  have ea : geti (validate strike F s) (2 * F - 1) =
      clampSlot strike (geti s (2 * F - 1)) :=
    validate_geti_odd strike F s (2 * F - 1) (by omega) (by omega) (by omega)
  have eb : geti (validate strike F s) (2 * F) = clampSlot strike (geti s (2 * F)) :=
    validate_geti_last2 strike F s hF h0
  show repairGo strike F (List.range' 1 F) (clampPass strike F (validate strike F s)) =
    validate strike F s
  rw [hclamp]
  rw [range'_split_at F F hF le_rfl,
    repairGo_append _ _ _ _ _ (notMem_range'_head F F le_rfl), hD,
    show F - F + 1 = 1 by omega, List.range'_one]
  simp only [repairGo, if_true]
  by_cases hcond : jlt (nadd (geti (validate strike F s) (2 * F - 1))
      (geti (validate strike F s) (2 * F))) (some strike) = true
  · rw [if_pos hcond]
    have hbon : geti (validate strike F s) (2 * F + 1) = none := by
      rw [validate_geti_bonus strike F s hF]
      rw [ea, eb] at hcond
      rw [if_pos hcond]
    rw [show (validate strike F s).set (2 * F + 1) none = validate strike F s by
      rw [← hbon, set_geti_self]]
    apply frameFix_id
    rw [eb, ea]
    rw [ea, eb] at hcond
    exact (secondVal_of_sum_lt strike _ _ hcond
      (fun y hy => (clampSlot_bounds strike h0 hy).1)).symm
  · rw [if_neg hcond]

/-! ### Frame scorer facts -/

instance : DecidableEq (Except Unit (Option Int)) := fun a b =>
  match a, b with
  | .ok x, .ok y =>
    if h : x = y then isTrue (by rw [h])
    else isFalse (fun hc => h (by injection hc))
  | .error x, .error y => isTrue (by cases x; cases y; rfl)
  | .ok _, .error _ => isFalse (fun hc => Except.noConfusion hc)
  | .error _, .ok _ => isFalse (fun hc => Except.noConfusion hc)

theorem frameTotal_length (strike : Int) (F fuel : Nat) (input : Seq) :
    (frameTotal strike F fuel input).length = F := by
  unfold frameTotal
  rw [List.length_map, List.length_range]

theorem frameTotal_getD (strike : Int) (F fuel : Nat) (input : Seq) (f : Nat)
    (hf : f < F) :
    (frameTotal strike F fuel input).getD f none =
      frameScore strike F fuel input (2 * f + 1) := by
  unfold frameTotal
  rw [List.getD_eq_getElem?_getD, List.getElem?_map, List.getElem?_range hf]
  rfl

theorem frameTotalLoop_eq (strike : Int) (F fuel : Nat) (l : List Nat) (inp : Seq)
    (res : List (Option Int)) :
    frameTotalLoop strike F fuel l (inp, res) =
      (inp, res ++ l.map (frameScore strike F fuel inp)) := by
  induction l generalizing res with
  | nil => simp [frameTotalLoop]
  | cons t rest ih =>
    simp only [frameTotalLoop, List.map_cons]
    rw [ih]
    simp

theorem frameTotalSt_eq (strike : Int) (F fuel : Nat) (input : Seq) :
    frameTotalSt strike F fuel input = (input, frameTotal strike F fuel input) := by
  unfold frameTotalSt frameTotal
  rw [frameTotalLoop_eq]
  simp [List.map_map, Function.comp]

/-! ### The lookahead recursion diverges on an all-unrecorded tail -/

theorem geti_replicate_none (n j : Nat) :
    geti (List.replicate n (none : Option Int)) j = none := by
  rw [geti, List.getD_eq_getElem?_getD, List.getElem?_replicate]
  split <;> rfl

theorem nextFuel_replicate_overflow (limit : Nat) (fuel t : Nat) :
    nextFuel (List.replicate 22 (none : Option Int)) limit fuel t = NextRes.overflow := by
  induction fuel generalizing t with
  | zero => rfl
  | succ fuel ih =>
    unfold nextFuel
    rw [geti_replicate_none]
    rw [if_pos (show (none : Option Int).isNone = true from rfl)]
    exact ih (t + 1)

/-! ### The cumulative subtotal row -/

theorem cumulGo_length (sum : Int) (sub : List (Option Int)) :
    (cumulGo sum sub).length = sub.length := by
  induction sub generalizing sum with
  | nil => rfl
  | cons o rest ih => cases o <;> simp [cumulGo, ih]

theorem cumulGo_getD (sub : List (Option Int)) (sum : Int) (j : Nat)
    (hj : j < sub.length) :
    (cumulGo sum sub).getD j none =
      (sub.getD j none).map (fun _ => sum + sumRec (sub.take (j + 1))) := by
  induction sub generalizing sum j with
  | nil => simp at hj
  | cons o rest ih =>
    cases j with
    | zero =>
      cases o with
      | none => simp [cumulGo]
      | some w => simp [cumulGo, sumRec]
    | succ j =>
      have hj' : j < rest.length := by simpa using hj
      cases o with
      | none =>
        simp only [cumulGo, List.getD_cons_succ, List.take_succ_cons, sumRec]
        exact ih sum j hj'
      | some w =>
        simp only [cumulGo, List.getD_cons_succ, List.take_succ_cons, sumRec]
        rw [ih (sum + w) j hj']
        cases rest.getD j none <;> simp [add_assoc]

/-! ### Glyph positions -/

/-- C3 (amended): for a recorded slot, first-throw glyph rules (`X`/`G`/numeral)
apply to every odd-indexed slot (which includes the trailing bonus slot
`2*frameCount+1`) and to the even slot `2*frameCount` — the last frame's second
slot, not the bonus slot — exactly when the last frame's first throw reaches the
strike threshold; every other even-indexed recorded slot gets the second-throw
rules (`/` when the value plus the previous slot reaches the threshold, `-` for
zero, else the numeral). -/
theorem throwString_cases (strike : Int) (F : Nat) (input : Seq) (t : Nat) (v : Int)
    (hv : geti input t = some v) :
    (t % 2 = 0 →
      throwString strike F input t =
        if t = 2 * F ∧ jge (geti input (t - 1)) (some strike) = true
        then firstGlyph strike v else secondGlyph strike v (geti input (t - 1))) ∧
    (t % 2 = 1 → throwString strike F input t = firstGlyph strike v) := by
  constructor
  · intro heven
    by_cases hc : t = 2 * F ∧ jge (geti input (t - 1)) (some strike) = true
    · rw [if_pos hc]
      unfold throwString
      simp only [hv]
      rw [if_pos (Or.inr hc)]
      rfl
    · rw [if_neg hc]
      unfold throwString
      simp only [hv]
      rw [if_neg (fun hor => hor.elim (fun h1 => absurd h1 (by omega)) hc)]
      rfl
  · intro hodd
    unfold throwString
    simp only [hv]
    rw [if_pos (Or.inl hodd)]
    rfl

/-! ### Concrete game states used by the claims -/

/-- All-strikes game at frameCount 10, strikeValue 10: every regular frame's
first throw is 10, the two trailing bonus slots are 10, all else unrecorded. -/
def exAllStrikes : Seq :=
  [none, some 10, none, some 10, none, some 10, none, some 10, none, some 10,
   none, some 10, none, some 10, none, some 10, none, some 10, none, some 10,
   some 10, some 10]

/-- frameCount 1, strikeValue 10: the last (only) frame holds a recorded strike
followed by a recorded second throw of 5. -/
def exLastStrike : Seq := [none, some 10, some 5, none]

/-- frameCount 2, strikeValue 10: last-frame raw throws (-5, 14) — raw sum 9,
clamped sum 10 — with a previously entered bonus throw of 7. -/
def exClampBonus : Seq := [none, none, none, some (-5), some 14, some 7]

/-- frameCount 10, strikeValue 10: last frame's first throw is a strike, its
second slot holds a recorded 0, everything else unrecorded. -/
def exStrikeThenGutter : Seq :=
  [none, none, none, none, none, none, none, none, none, none,
   none, none, none, none, none, none, none, none, none, some 10,
   some 0, none]

/-- frameCount 3, strikeValue 10: frame 1 = (1, 2), frame 2 unrecorded,
frame 3 = (2, 3). -/
def exSkipIncomplete : Seq := [none, some 1, some 2, none, none, some 2, some 3, none]

/-- frameCount 1, strikeValue 10: a lone strike with no recorded bonus throws,
so resolving its bonus lookahead runs past the end of the sequence. -/
def exLoneStrike : Seq := [none, some 10, none, none]

/-! ### Claim C1 -/

/-- C1 counterexample: for the validated sequence with frame subtotals
3, incomplete, 5, the cumulative cell of frame 3 displays 8 — the partial sum
that skips the incomplete frame 2 — instead of the blank marker the claim
requires for every frame at or after the first incomplete one. -/
theorem aggregator_shortcircuit_cex :
    validate 10 3 exSkipIncomplete = exSkipIncomplete ∧
    frameTotal 10 3 5 exSkipIncomplete = [some 3, none, some 5] ∧
    (cumulDisplay (frameTotal 10 3 5 exSkipIncomplete)).getD 1 none = none ∧
    (cumulDisplay (frameTotal 10 3 5 exSkipIncomplete)).getD 2 none = some 8 := by
  decide

/-- C1 (amended): a frame's cumulative cell is blank exactly when that frame's
own subtotal is incomplete; a complete frame's cell shows the sum of the
recorded subtotals up to and including it — incomplete frames are skipped, not
short-circuited. -/
theorem aggregator_skips_incomplete (sub : List (Option Int)) (j : Nat)
    (hj : j < sub.length) :
    (cumulDisplay sub).length = sub.length ∧
    (cumulDisplay sub).getD j none =
      (sub.getD j none).map (fun _ => sumRec (sub.take (j + 1))) := by
  refine ⟨cumulGo_length 0 sub, ?_⟩
  rw [cumulDisplay, cumulGo_getD sub 0 j hj]
  cases sub.getD j none <;> simp

/-- Witness for C1 (amended) at the subtotal list `[some 3, none, some 5]`. -/
theorem aggregator_skips_incomplete_w :
    (cumulDisplay [some 3, none, some 5]).length = 3 ∧
    (cumulDisplay [some 3, none, some 5]).getD 2 none =
      (([some 3, none, some 5] : List (Option Int)).getD 2 none).map
        (fun _ => sumRec (([some 3, none, some 5] : List (Option Int)).take 3)) :=
  aggregator_skips_incomplete [some 3, none, some 5] 2 (by decide)

/-! ### Claim C2 -/

/-- C2 counterexample: frameCount 1, strikeValue 10.  After validation the
(last) frame's first throw is the recorded strike 10 yet its second throw is
still the recorded 5, because the repair loop exits at the last frame without
applying the strike rule. -/
theorem validate_last_frame_cex :
    validate 10 1 exLastStrike = exLastStrike ∧
    geti (validate 10 1 exLastStrike) 1 = some 10 ∧
    geti (validate 10 1 exLastStrike) 2 = some 5 := by
  decide

/-- C2 (amended): the per-frame repair rule holds for every frame
`f < frameCount`: the validated second throw is unrecorded when the clamped
first throw is a recorded value ≥ strikeValue, is `strikeValue − first` when
the clamped throws are recorded and sum above strikeValue, and is the clamped
input otherwise.  The last frame is exempt: its second throw always keeps its
clamped input value. -/
theorem validate_repair_rule (strike : Int) (F : Nat) (s : Seq) (f : Nat)
    (h0 : 0 ≤ strike) (hf1 : 1 ≤ f) (hfF : f ≤ F) :
    (f < F → geti (validate strike F s) (2 * f) =
      secondVal strike (clampSlot strike (geti s (2 * f - 1)))
        (clampSlot strike (geti s (2 * f)))) ∧
    (f = F → geti (validate strike F s) (2 * f) = clampSlot strike (geti s (2 * f))) := by
  constructor
  · intro h
    exact validate_geti_second strike F s f hf1 h
  · intro h
    subst h
    exact validate_geti_last2 strike _ s (by omega) h0

/-- Witness for C2 (amended) at frameCount 1, strikeValue 10, `exLastStrike`. -/
theorem validate_repair_rule_w :
    (0 : Int) ≤ 10 ∧ (1 : Nat) ≤ 1 ∧
    ((1 < 1 → geti (validate 10 1 exLastStrike) 2 =
        secondVal 10 (clampSlot 10 (geti exLastStrike 1))
          (clampSlot 10 (geti exLastStrike 2))) ∧
     (1 = 1 → geti (validate 10 1 exLastStrike) 2 =
        clampSlot 10 (geti exLastStrike 2))) :=
  ⟨by decide, by decide,
    validate_repair_rule 10 1 exLastStrike 1 (by decide) (by decide) (by decide)⟩

/-! ### Claim C3 -/

/-- C3 counterexample: frameCount 10, strikeValue 10, validated input with a
last-frame strike at slot 19 and a recorded 0 at the even slot 20.  The claim
requires the second-throw rules there (`"/"`, since 0 + 10 reaches the
threshold), but the code renders the first-throw gutter glyph `"G"`. -/
theorem glyph_position_cex :
    validate 10 10 exStrikeThenGutter = exStrikeThenGutter ∧
    geti exStrikeThenGutter 20 = some 0 ∧ 20 % 2 = 0 ∧
    jge (nadd (some 0) (geti exStrikeThenGutter 19)) (some 10) = true ∧
    throwString 10 10 exStrikeThenGutter 20 = "G" := by
  decide

/-- Witness for C3 (amended) at slot 20 of `exStrikeThenGutter`. -/
theorem throwString_cases_w :
    geti exStrikeThenGutter 20 = some 0 ∧
    ((20 % 2 = 0 →
      throwString 10 10 exStrikeThenGutter 20 =
        if 20 = 2 * 10 ∧ jge (geti exStrikeThenGutter 19) (some 10) = true
        then firstGlyph 10 0 else secondGlyph 10 0 (geti exStrikeThenGutter 19)) ∧
     (20 % 2 = 1 → throwString 10 10 exStrikeThenGutter 20 = firstGlyph 10 0)) :=
  ⟨by decide, throwString_cases 10 10 exStrikeThenGutter 20 0 (by decide)⟩

/-! ### Claim C4 -/

/-- C4: the lookahead helper does not terminate within any call-stack budget
on the sequence whose slots are all unrecorded (the state right after a reset,
22 slots = frameCount*2+2 positions for frameCount 10), starting from the
in-bounds index 1: every fuel yields stack exhaustion, never a result and never
the guard's `Invalid frame access` Error — the guard sits after the recursive
call and is unreachable on an unrecorded tail, so the recursion is unbounded
rather than bounded by the sequence length. -/
theorem next_lookahead_unbounded (fuel : Nat) :
    nextFuel (List.replicate 22 (none : Option Int)) 21 fuel 1 = NextRes.overflow :=
  nextFuel_replicate_overflow 21 fuel 1

/-! ### Claim C5 -/

/-- C5: whenever the try-body of a frame's scoring iteration throws (which is
exactly when a bonus lookahead fails — by the guard Error or by stack
exhaustion while skipping unrecorded slots past the end), the published
subtotal for that frame is the incomplete marker, and the subtotal sequence is
nevertheless produced in full (one entry per frame); no exception reaches the
caller. -/
theorem frameTotal_exhaustion_incomplete (strike : Int) (F fuel : Nat) (input : Seq)
    (f : Nat) (hf : f < F)
    (herr : frameScoreBody strike F fuel input (2 * f + 1) = Except.error ()) :
    (frameTotal strike F fuel input).length = F ∧
    (frameTotal strike F fuel input).getD f none = none := by
  refine ⟨frameTotal_length strike F fuel input, ?_⟩
  rw [frameTotal_getD strike F fuel input f hf]
  unfold frameScore
  rw [herr]

/-- Witness for C5 at frameCount 1, strikeValue 10, a lone strike whose bonus
lookahead exhausts the sequence. -/
theorem frameTotal_exhaustion_incomplete_w :
    (0 : Nat) < 1 ∧
    frameScoreBody 10 1 5 exLoneStrike 1 = Except.error () ∧
    ((frameTotal 10 1 5 exLoneStrike).length = 1 ∧
     (frameTotal 10 1 5 exLoneStrike).getD 0 none = none) :=
  ⟨by decide, by decide,
    frameTotal_exhaustion_incomplete 10 1 5 exLoneStrike 0 (by decide) (by decide)⟩

/-! ### Claim C6 -/

set_option maxRecDepth 4000 in
/-- C6: with frameCount 10 and strikeValue 10, the all-strikes sequence is a
fixed point of validation, every frame's subtotal is 30 (for any call-stack
budget of at least 2, enough for each lookahead), and the grand total is 300. -/
theorem allStrikes_perfect_game (fuel : Nat) (hfuel : 2 ≤ fuel) :
    validate 10 10 exAllStrikes = exAllStrikes ∧
    frameTotal 10 10 fuel exAllStrikes = List.replicate 10 (some 30) ∧
    jsTotal (frameTotal 10 10 fuel exAllStrikes) = some 300 := by
  obtain ⟨k, rfl⟩ : ∃ k, fuel = k + 2 := ⟨fuel - 2, by omega⟩
  refine ⟨by decide, ?_, ?_⟩
  · rfl
  · rfl

/-- Witness for C6 at fuel 2. -/
theorem allStrikes_perfect_game_w :
    (2 : Nat) ≤ 2 ∧
    (validate 10 10 exAllStrikes = exAllStrikes ∧
     frameTotal 10 10 2 exAllStrikes = List.replicate 10 (some 30) ∧
     jsTotal (frameTotal 10 10 2 exAllStrikes) = some 300) :=
  ⟨by decide, allStrikes_perfect_game 2 (by decide)⟩

/-! ### Claim C7 -/

/-- C7: the validator is idempotent — applying `validate` to its own output
(for a configuration with positive strike value and at least one frame) yields
that output unchanged. -/
theorem validate_idem (strike : Int) (F : Nat) (s : Seq)
    (h0 : 0 < strike) (hF : 1 ≤ F) :
    validate strike F (validate strike F s) = validate strike F s :=
  validate_validate strike F s (le_of_lt h0) hF

/-- Witness for C7 at frameCount 1, strikeValue 10, `exLastStrike`. -/
theorem validate_idem_w :
    (0 : Int) < 10 ∧ (1 : Nat) ≤ 1 ∧
    validate 10 1 (validate 10 1 exLastStrike) = validate 10 1 exLastStrike :=
  ⟨by decide, by decide, validate_idem 10 1 exLastStrike (by decide) (by decide)⟩

/-! ### Claim C8 -/

/-- C8 counterexample: frameCount 2, strikeValue 10; the last frame's raw
throws (-5, 14) are both recorded with sum 9 < 10, yet validation keeps the
bonus slot recorded as 7, because the no-bonus rule tests the clamped values
(0, 10), whose sum is not below the strike value. -/
theorem bonus_slot_cex :
    geti exClampBonus 3 = some (-5) ∧ geti exClampBonus 4 = some 14 ∧
    jlt (nadd (geti exClampBonus 3) (geti exClampBonus 4)) (some 10) = true ∧
    geti (validate 10 2 exClampBonus) 5 = some 7 := by
  decide

/-- C8 (amended): the bonus (third) slot of the validated sequence is forced
unrecorded exactly when the last frame's two throws are, after clamping, both
recorded with sum strictly below the strike value; otherwise it holds its
entered value after clamping. -/
theorem validate_bonus_rule (strike : Int) (F : Nat) (s : Seq) (hF : 1 ≤ F) :
    geti (validate strike F s) (2 * F + 1) =
      if jlt (nadd (clampSlot strike (geti s (2 * F - 1)))
          (clampSlot strike (geti s (2 * F)))) (some strike) = true
      then none else clampSlot strike (geti s (2 * F + 1)) :=
  validate_geti_bonus strike F s hF

/-- Witness for C8 (amended) at frameCount 2, strikeValue 10, `exClampBonus`. -/
theorem validate_bonus_rule_w :
    (1 : Nat) ≤ 2 ∧
    geti (validate 10 2 exClampBonus) 5 =
      (if jlt (nadd (clampSlot 10 (geti exClampBonus 3))
          (clampSlot 10 (geti exClampBonus 4))) (some 10) = true
       then none else clampSlot 10 (geti exClampBonus 5)) :=
  ⟨by decide, validate_bonus_rule 10 2 exClampBonus (by decide)⟩

/-! ### Claim C9 -/

/-- C9: after validation, every slot within the sequence's `1..2*frameCount+1`
range that holds a recorded value `v` satisfies `0 ≤ v ≤ strikeValue` — this
covers the clamp pass and the value produced by the second-throw reduction. -/
theorem validate_clamp_invariant (strike : Int) (F : Nat) (s : Seq) (i : Nat) (v : Int)
    (h0 : 0 < strike) (hF : 1 ≤ F) (h1 : 1 ≤ i) (h2 : i ≤ 2 * F + 1)
    (hv : geti (validate strike F s) i = some v) :
    0 ≤ v ∧ v ≤ strike :=
  validate_bounds strike F s i v (le_of_lt h0) hF h1 h2 hv

/-- Witness for C9 at slot 4 of the validated `exClampBonus` (the raw 14 was
clamped to 10). -/
theorem validate_clamp_invariant_w :
    geti (validate 10 2 exClampBonus) 4 = some 10 ∧
    ((0 : Int) ≤ 10 ∧ (10 : Int) ≤ 10) :=
  ⟨by decide, validate_clamp_invariant 10 2 exClampBonus 4 10 (by decide) (by decide)
    (by decide) (by decide) (by decide)⟩

/-! ### Claim C10 -/

/-- C10: the frame scorer never mutates its input — in the state-passing form
of the scoring loop, the throw sequence handed back after computing every
frame's subtotal is exactly the input sequence, and the computed subtotals
agree with the direct scorer. -/
theorem frameTotal_no_mutation (strike : Int) (F fuel : Nat) (input : Seq) :
    (frameTotalSt strike F fuel input).1 = input ∧
    (frameTotalSt strike F fuel input).2 = frameTotal strike F fuel input := by
  rw [frameTotalSt_eq]
  exact ⟨rfl, rfl⟩

end Bowl
